import Mathlib

/-!
# Verification of the ion shell word lexer (`src/parser/shell_expand/words.rs`)

This file gives a shallow embedding of the `WordIterator` lexer and proves
properties of it.  The input line is modelled as a list of bytes (`List Nat`,
each entry the value of one byte of the Rust `&str`), the shared cursor
`self.read` as a `Nat`, and the bit-flag register `self.flags : u8` as a `Nat`
manipulated with `Nat.land` / `Nat.xor` exactly as the source does (the flag
values never exceed 7, so `u8` and `Nat` bitwise operations agree).

Each Rust method walks a byte iterator that stays in sync with `self.read`;
we embed every loop as structural recursion on the list of not-yet-consumed
bytes (`rest`), carrying the cursor explicitly.  The source's `panic!` calls
and the unguarded slice index `self.data.as_bytes()[self.read+1]` are modelled
as `Except.error` results, so that fatal aborts are distinguishable both from
returned tokens and from the normal end-of-input signal.
-/

set_option autoImplicit false

namespace Words

/-- The input line as a sequence of byte values. -/
abbrev Bytes := List Nat

/-- `const BACKSL: u8 = 1` -/
def BACKSL : Nat := 1
/-- `const SQUOTE: u8 = 2` -/
def SQUOTE : Nat := 2
/-- `const DQUOTE: u8 = 4` -/
def DQUOTE : Nat := 4

/-- `enum Index`: only `All` is implemented in the source. -/
inductive Index where
  | All
deriving DecidableEq, Repr

/-- `enum WordToken<'a>` from the source, with borrowed `&str` slices
replaced by the byte sequences they denote. -/
inductive WordToken where
  | Normal (text : Bytes)
  | Whitespace (text : Bytes)
  | Tilde (text : Bytes)
  | Brace (elements : List Bytes)
  | Variable (name : Bytes) (quoted : Bool)
  | ArrayVariable (name : Bytes) (quoted : Bool) (index : Index)
  | ArrayProcess (text : Bytes) (quoted : Bool) (index : Index)
  | Process (text : Bytes) (quoted : Bool)
deriving DecidableEq, Repr

/-- The fatal outcomes of a lexing step: the four `panic!` sites of the
source, the possible out-of-bounds index in the `$`/`@` lookahead of the
substitution lexers, and exhaustion of the artificial fuel used to drive
the top-level iteration (the Rust loop is unbounded; ample fuel never
reaches this constructor). -/
inductive LexError where
  | unterminatedBracedVariable
  | unterminatedProcess
  | unterminatedArrayProcess
  | unterminatedBrace
  | indexOutOfBounds
  | outOfFuel
deriving DecidableEq, Repr

/-- `&self.data[start..stop]`. -/
def slice (data : Bytes) (start stop : Nat) : Bytes :=
  (data.drop start).take (stop - start)

/-- `self.flags & DQUOTE != 0`, the `quoted` bit attached to tokens. -/
def dq (flags : Nat) : Bool := flags.land DQUOTE != 0

/-- The byte ranges `0...47 | 58...64 | 91...94 | 96 | 123...127` used by the
source to end tilde expansions and variable names. -/
def isDelim (c : Nat) : Bool :=
  c ≤ 47 || (58 ≤ c && c ≤ 64) || (91 ≤ c && c ≤ 94) || c == 96 ||
    (123 ≤ c && c ≤ 127)

/-- The loop of `WordIterator::whitespaces`; `start` is frozen at entry,
`read` is the cursor, `rest` the bytes the iterator has not yielded yet. -/
def whitespacesLoop (data : Bytes) (start : Nat) : Nat → Bytes → WordToken × Nat
  | read, [] => (.Whitespace (slice data start read), read)
  | read, c :: rest =>
    if c = 32 then whitespacesLoop data start (read + 1) rest
    else (.Whitespace (slice data start read), read)

/-- `WordIterator::whitespaces`: called with the cursor still on the space
byte; it does `self.read += 1` before scanning. -/
def whitespaces (data : Bytes) (read : Nat) (rest : Bytes) : WordToken × Nat :=
  whitespacesLoop data read (read + 1) rest

/-- The loop of `WordIterator::tilde`. -/
def tildeLoop (data : Bytes) (start : Nat) : Nat → Bytes → WordToken × Nat
  | read, [] => (.Tilde (data.drop start), read)
  | read, c :: rest =>
    if isDelim c then (.Tilde (slice data start read), read)
    else tildeLoop data start (read + 1) rest

/-- `WordIterator::tilde`: the driver advanced the cursor past `~` before the
call, so `start = read - 1`. -/
def tilde (data : Bytes) (read : Nat) (rest : Bytes) : WordToken × Nat :=
  tildeLoop data (read - 1) read rest

/-- The loop of `WordIterator::braced_variable`; reaching the end of the
input is the source's `panic!("... unterminated braced variable")`. -/
def bracedVariableLoop (data : Bytes) (start flags : Nat) :
    Nat → Bytes → Except LexError (WordToken × Nat)
  | _, [] => .error .unterminatedBracedVariable
  | read, c :: rest =>
    if c = 125 then .ok (.Variable (slice data start read) (dq flags), read + 1)
    else bracedVariableLoop data start flags (read + 1) rest

/-- `WordIterator::braced_variable` (cursor already past `${`). -/
def braced_variable (data : Bytes) (read flags : Nat) (rest : Bytes) :
    Except LexError (WordToken × Nat) :=
  bracedVariableLoop data read flags read rest

/-- The loop of `WordIterator::variable`: a delimiter byte ends the name
(cursor left on the delimiter); end of input returns `&self.data[start..]`. -/
def variableLoop (data : Bytes) (start flags : Nat) : Nat → Bytes → WordToken × Nat
  | read, [] => (.Variable (data.drop start) (dq flags), read)
  | read, c :: rest =>
    if isDelim c then (.Variable (slice data start read) (dq flags), read)
    else variableLoop data start flags (read + 1) rest

/-- `WordIterator::variable`: `start = self.read`, then `self.read += 1`
(the byte at `start` was already consumed by the driver's lookahead and is
included in the name unconditionally). -/
def «variable» (data : Bytes) (read flags : Nat) (rest : Bytes) : WordToken × Nat :=
  variableLoop data read flags (read + 1) rest

/-- The loop of `WordIterator::array_variable`.  As in the source, the
delimiter branch returns a `Variable` token while the end-of-input branch
returns an `ArrayVariable` token. -/
def arrayVariableLoop (data : Bytes) (start flags : Nat) : Nat → Bytes → WordToken × Nat
  | read, [] => (.ArrayVariable (data.drop start) (dq flags) .All, read)
  | read, c :: rest =>
    if isDelim c then (.Variable (slice data start read) (dq flags), read)
    else arrayVariableLoop data start flags (read + 1) rest

/-- `WordIterator::array_variable`. -/
def array_variable (data : Bytes) (read flags : Nat) (rest : Bytes) : WordToken × Nat :=
  arrayVariableLoop data read flags (read + 1) rest

/-- The loop of `WordIterator::process`.  `read` is the index of the byte
`c` being matched; the `$` arm reads `self.data.as_bytes()[self.read+1]`
directly from `data`, which is an out-of-bounds abort when `read + 1` is
past the end.  Reaching the end of input is the source's
`panic!("... unterminated process")`. -/
def processLoop (data : Bytes) (start : Nat) :
    Nat → Nat → Nat → Bytes → Except LexError (WordToken × Nat × Nat)
  | _, _, _, [] => .error .unterminatedProcess
  | read, flags, level, c :: rest =>
    if flags.land BACKSL ≠ 0 then
      processLoop data start (read + 1) (flags.xor BACKSL) level rest
    else if c = 92 then
      processLoop data start (read + 1) (flags.xor BACKSL) level rest
    else if c = 39 ∧ flags.land DQUOTE = 0 then
      processLoop data start (read + 1) (flags.xor SQUOTE) level rest
    else if c = 34 ∧ flags.land SQUOTE = 0 then
      processLoop data start (read + 1) (flags.xor DQUOTE) level rest
    else if c = 36 ∧ flags.land SQUOTE = 0 then
      match data.get? (read + 1) with
      | none => .error .indexOutOfBounds
      | some b =>
        if b = 40 then processLoop data start (read + 1) flags (level + 1) rest
        else processLoop data start (read + 1) flags level rest
    else if c = 41 ∧ flags.land SQUOTE = 0 then
      if level = 0 then
        .ok (.Process (slice data start read) (dq flags), read + 1, flags)
      else processLoop data start (read + 1) flags (level - 1) rest
    else processLoop data start (read + 1) flags level rest

/-- `WordIterator::process` (cursor already past `$(`). -/
def process (data : Bytes) (read flags : Nat) (rest : Bytes) :
    Except LexError (WordToken × Nat × Nat) :=
  processLoop data read read flags 0 rest

/-- The loop of `WordIterator::array_process`, symmetric to `processLoop`
with `@[` / `]` in place of `$(` / `)`. -/
def arrayProcessLoop (data : Bytes) (start : Nat) :
    Nat → Nat → Nat → Bytes → Except LexError (WordToken × Nat × Nat)
  | _, _, _, [] => .error .unterminatedArrayProcess
  | read, flags, level, c :: rest =>
    if flags.land BACKSL ≠ 0 then
      arrayProcessLoop data start (read + 1) (flags.xor BACKSL) level rest
    else if c = 92 then
      arrayProcessLoop data start (read + 1) (flags.xor BACKSL) level rest
    else if c = 39 ∧ flags.land DQUOTE = 0 then
      arrayProcessLoop data start (read + 1) (flags.xor SQUOTE) level rest
    else if c = 34 ∧ flags.land SQUOTE = 0 then
      arrayProcessLoop data start (read + 1) (flags.xor DQUOTE) level rest
    else if c = 64 ∧ flags.land SQUOTE = 0 then
      match data.get? (read + 1) with
      | none => .error .indexOutOfBounds
      | some b =>
        if b = 91 then arrayProcessLoop data start (read + 1) flags (level + 1) rest
        else arrayProcessLoop data start (read + 1) flags level rest
    else if c = 93 ∧ flags.land SQUOTE = 0 then
      if level = 0 then
        .ok (.ArrayProcess (slice data start read) (dq flags) .All, read + 1, flags)
      else arrayProcessLoop data start (read + 1) flags (level - 1) rest
    else arrayProcessLoop data start (read + 1) flags level rest

/-- `WordIterator::array_process` (cursor already past `@[`). -/
def array_process (data : Bytes) (read flags : Nat) (rest : Bytes) :
    Except LexError (WordToken × Nat × Nat) :=
  arrayProcessLoop data read read flags 0 rest

/-- The loop of `WordIterator::braces`: splits the interior on unquoted,
unescaped top-level commas while balancing `{`/`}`. -/
def bracesLoop (data : Bytes) :
    Nat → Nat → Nat → Nat → List Bytes → Bytes → Except LexError (WordToken × Nat × Nat)
  | _, _, _, _, _, [] => .error .unterminatedBrace
  | start, read, flags, level, elements, c :: rest =>
    if flags.land BACKSL ≠ 0 then
      bracesLoop data start (read + 1) (flags.xor BACKSL) level elements rest
    else if c = 92 then
      bracesLoop data start (read + 1) (flags.xor BACKSL) level elements rest
    else if c = 39 ∧ flags.land DQUOTE = 0 then
      bracesLoop data start (read + 1) (flags.xor SQUOTE) level elements rest
    else if c = 34 ∧ flags.land SQUOTE = 0 then
      bracesLoop data start (read + 1) (flags.xor DQUOTE) level elements rest
    else if c = 44 ∧ flags.land (SQUOTE + DQUOTE) = 0 ∧ level = 0 then
      bracesLoop data (read + 1) (read + 1) flags level
        (elements ++ [slice data start read]) rest
    else if c = 123 ∧ flags.land (SQUOTE + DQUOTE) = 0 then
      bracesLoop data start (read + 1) flags (level + 1) elements rest
    else if c = 125 ∧ flags.land (SQUOTE + DQUOTE) = 0 then
      if level = 0 then
        .ok (.Brace (elements ++ [slice data start read]), read + 1, flags)
      else bracesLoop data start (read + 1) flags (level - 1) elements rest
    else bracesLoop data start (read + 1) flags level elements rest

/-- `WordIterator::braces` (cursor already past `{`). -/
def braces (data : Bytes) (read flags : Nat) (rest : Bytes) :
    Except LexError (WordToken × Nat × Nat) :=
  bracesLoop data read read flags 0 [] rest

/-- The plain-text accumulation loop at the end of `Iterator::next`
(lines 324-355 of the source): collects a `Normal` span, consuming a
terminating quote byte but leaving a terminating space / `{` / `$` / `@`
for the next call.  Returns `none` when the accumulated span is empty at
end of input (the source's final `return None`). -/
def accumulate (data : Bytes) (start : Nat) :
    Nat → Nat → Bytes → Option WordToken × Nat × Nat
  | read, flags, [] =>
    if start = read then (none, read, flags)
    else (some (.Normal (data.drop start)), read, flags)
  | read, flags, c :: rest =>
    if flags.land BACKSL ≠ 0 then
      accumulate data start (read + 1) (flags.xor BACKSL) rest
    else if c = 92 then
      accumulate data start (read + 1) (flags.xor BACKSL) rest
    else if c = 39 ∧ flags.land DQUOTE = 0 then
      (some (.Normal (slice data start read)), read + 1, flags.xor SQUOTE)
    else if c = 34 ∧ flags.land SQUOTE = 0 then
      (some (.Normal (slice data start read)), read + 1, flags.xor DQUOTE)
    else if (c = 32 ∨ c = 123) ∧ flags.land (SQUOTE + DQUOTE) = 0 then
      (some (.Normal (slice data start read)), read, flags)
    else if (c = 36 ∨ c = 64) ∧ flags.land SQUOTE = 0 then
      (some (.Normal (slice data start read)), read, flags)
    else accumulate data start (read + 1) flags rest

/-- The dispatching loop at the head of `Iterator::next` (lines 261-322):
consumes quote-boundary bytes, dispatches to the sub-lexers on special
bytes (with the one-byte lookahead after `@` / `$`), and otherwise falls
into the accumulation loop. -/
def nextLoop (data : Bytes) :
    Nat → Nat → Nat → Bytes → Except LexError (Option WordToken × Nat × Nat)
  | _, read, flags, [] => .ok (none, read, flags)
  | start, read, flags, c :: rest =>
    if c = 39 ∧ flags.land DQUOTE = 0 then
      nextLoop data (start + 1) (read + 1) (flags.xor SQUOTE) rest
    else if c = 34 ∧ flags.land SQUOTE = 0 then
      nextLoop data (start + 1) (read + 1) (flags.xor DQUOTE) rest
    else if c = 32 ∧ flags.land (SQUOTE + DQUOTE) = 0 then
      .ok (some (whitespaces data read rest).1, (whitespaces data read rest).2, flags)
    else if c = 126 ∧ flags.land (SQUOTE + DQUOTE) = 0 then
      .ok (some (tilde data (read + 1) rest).1, (tilde data (read + 1) rest).2, flags)
    else if c = 123 ∧ flags.land (SQUOTE + DQUOTE) = 0 then
      match braces data (read + 1) flags rest with
      | .error e => .error e
      | .ok (t, read', flags') => .ok (some t, read', flags')
    else if c = 64 ∧ flags.land SQUOTE = 0 then
      match rest with
      | 91 :: rest2 =>
        match array_process data (read + 2) flags rest2 with
        | .error e => .error e
        | .ok (t, read', flags') => .ok (some t, read', flags')
      | _ =>
        .ok (some (array_variable data (read + 1) flags rest.tail).1,
          (array_variable data (read + 1) flags rest.tail).2, flags)
    else if c = 36 ∧ flags.land SQUOTE = 0 then
      match rest with
      | 40 :: rest2 =>
        match process data (read + 2) flags rest2 with
        | .error e => .error e
        | .ok (t, read', flags') => .ok (some t, read', flags')
      | 123 :: rest2 =>
        match braced_variable data (read + 2) flags rest2 with
        | .error e => .error e
        | .ok (t, read') => .ok (some t, read', flags)
      | _ =>
        .ok (some («variable» data (read + 1) flags rest.tail).1,
          («variable» data (read + 1) flags rest.tail).2, flags)
    else
      .ok (accumulate data start (read + 1) flags rest)

/-- One call of `Iterator::next`: `ok (some t, read', flags')` is a returned
token, `ok (none, read', flags')` the normal end-of-input signal `None`
(the mutated cursor and flags are kept, as the Rust object keeps them),
and `error` a fatal abort. -/
def next (data : Bytes) (read flags : Nat) :
    Except LexError (Option WordToken × Nat × Nat) :=
  if read = data.length then .ok (none, read, flags)
  else nextLoop data read read flags (data.drop read)

/-- Repeatedly call `next`, collecting the produced tokens of one lexing
pass.  `fuel` bounds the number of calls; `data.length + 1` always
suffices because every token consumes at least one byte. -/
def run (data : Bytes) : Nat → Nat → Nat → Except LexError (List WordToken)
  | 0, _, _ => .error .outOfFuel
  | fuel + 1, read, flags =>
    match next data read flags with
    | .error e => .error e
    | .ok (none, _, _) => .ok []
    | .ok (some t, read', flags') =>
      match run data fuel read' flags' with
      | .error e => .error e
      | .ok ts => .ok (t :: ts)

/-- Like `run`, but each step also records the span of input bytes the call
consumed (token-producing steps and the final end-of-input step alike);
also returns the final cursor and flags. -/
def runS (data : Bytes) :
    Nat → Nat → Nat → Except LexError (List (Option WordToken × Bytes) × Nat × Nat)
  | 0, _, _ => .error .outOfFuel
  | fuel + 1, read, flags =>
    match next data read flags with
    | .error e => .error e
    | .ok (none, read', flags') => .ok ([(none, slice data read read')], read', flags')
    | .ok (some t, read', flags') =>
      match runS data fuel read' flags' with
      | .error e => .error e
      | .ok (entries, rfin, ffin) =>
        .ok ((some t, slice data read read') :: entries, rfin, ffin)

/-- Convert a string of ASCII text to the byte sequence the lexer reads. -/
def toBytes (s : String) : Bytes := s.data.map Char.toNat

deriving instance DecidableEq for Except

/-- The name carried by a (bare or array) variable token, if any. -/
def nameOf : WordToken → Option Bytes
  | .Variable n _ => some n
  | .ArrayVariable n _ _ => some n
  | _ => none

/-- The name the variable lexers actually produce, starting at the byte
just after the sigil (position `start`): that first byte unconditionally
(`slice data start (start+1)`, empty at end of input), followed by the
maximal run of non-delimiter bytes.  This is the spec-side characterisation
that the amended claim C6 compares the code against. -/
def nameAfterSigil (data : Bytes) (start : Nat) : Bytes :=
  slice data start (start + 1) ++
    (data.drop (start + 1)).takeWhile (fun b => !isDelim b)

/-- The quote-flag invariant of claim C8: the register stays below 8 (only
the three defined bits) and never has `SQUOTE` and `DQUOTE` set at once
(`SQUOTE + DQUOTE = 6`). -/
abbrev flagInv (f : Nat) : Prop := f < 8 ∧ f.land 6 ≠ 6

/-! ### Sanity checks against the source's own unit tests -/

example :
    run (toBytes "echo $ABC one{$ABC,$ABC} ~ $(echo foo)") 40 0 0 =
      .ok [.Normal (toBytes "echo"), .Whitespace (toBytes " "),
           .Variable (toBytes "ABC") false, .Whitespace (toBytes " "),
           .Normal (toBytes "one"),
           .Brace [toBytes "$ABC", toBytes "$ABC"], .Whitespace (toBytes " "),
           .Tilde (toBytes "~"), .Whitespace (toBytes " "),
           .Process (toBytes "echo foo") false] := by decide

example :
    run (toBytes "\"${ABC}\" \"$(seq 1 100)\"") 30 0 0 =
      .ok [.Variable (toBytes "ABC") true, .Whitespace (toBytes " "),
           .Process (toBytes "seq 1 100") true] := by decide

example :
    run (toBytes "echo $(git branch | rg \'[*]\' | awk \'{print $2}\')") 60 0 0 =
      .ok [.Normal (toBytes "echo"), .Whitespace (toBytes " "),
           .Process (toBytes "git branch | rg \'[*]\' | awk \'{print $2}\'")
             false] := by decide

/-! ### Slice arithmetic -/

theorem slice_append {data : Bytes} {a b c : Nat} (hab : a ≤ b) (hbc : b ≤ c) :
    slice data a b ++ slice data b c = slice data a c := by
  unfold slice
  rw [show c - a = (b - a) + (c - b) by omega, List.take_add,
    show data.drop b = (data.drop a).drop (b - a) by
      rw [List.drop_drop]; congr 1; omega]

theorem slice_eq_drop {data : Bytes} {start read : Nat} (h : data.length ≤ read) :
    slice data start read = data.drop start := by
  unfold slice
  apply List.take_of_length_le
  rw [List.length_drop]; omega

theorem slice_single {data : Bytes} {read c : Nat} {rest : Bytes}
    (h : data.drop read = c :: rest) : slice data read (read + 1) = [c] := by
  unfold slice
  rw [h, show read + 1 - read = 1 by omega]
  rfl

theorem drop_succ_of_drop_cons {data : Bytes} {read c : Nat} {rest : Bytes}
    (h : data.drop read = c :: rest) : data.drop (read + 1) = rest := by
  rw [← List.drop_drop 1 read data, h]
  rfl

theorem length_le_of_drop_nil {data : Bytes} {read : Nat}
    (h : data.drop read = []) : data.length ≤ read :=
  List.drop_eq_nil_iff.mp h

theorem lt_length_of_drop_cons {data : Bytes} {read c : Nat} {rest : Bytes}
    (h : data.drop read = c :: rest) : read < data.length := by
  by_contra hc
  rw [List.drop_eq_nil_iff.mpr (by omega)] at h
  exact List.noConfusion h

theorem getLast?_of_drop_single {data : Bytes} {read c : Nat}
    (h : data.drop read = [c]) : data.getLast? = some c := by
  have hg : data.get? (read + 0) = some c := by
    rw [← List.get?_drop, h]; rfl
  have hlt : read < data.length := lt_length_of_drop_cons h
  have hl := congrArg List.length h
  simp only [List.length_drop, List.length_cons, List.length_nil] at hl
  rw [List.getLast?_eq_get?, show data.length - 1 = read + 0 by omega]
  exact hg

/-! ### Cursor monotonicity of the sub-lexers -/

theorem whitespacesLoop_le (data : Bytes) (start : Nat) :
    ∀ rest read, read ≤ (whitespacesLoop data start read rest).2 := by
  intro rest
  induction rest with
  | nil => intro read; exact Nat.le_refl _
  | cons c rest ih =>
    intro read
    simp only [whitespacesLoop]
    split
    · exact Nat.le_trans (Nat.le_succ read) (ih (read + 1))
    · exact Nat.le_refl _

theorem tildeLoop_le (data : Bytes) (start : Nat) :
    ∀ rest read, read ≤ (tildeLoop data start read rest).2 := by
  intro rest
  induction rest with
  | nil => intro read; exact Nat.le_refl _
  | cons c rest ih =>
    intro read
    simp only [tildeLoop]
    split
    · exact Nat.le_refl _
    · exact Nat.le_trans (Nat.le_succ read) (ih (read + 1))

theorem variableLoop_le (data : Bytes) (start flags : Nat) :
    ∀ rest read, read ≤ (variableLoop data start flags read rest).2 := by
  intro rest
  induction rest with
  | nil => intro read; exact Nat.le_refl _
  | cons c rest ih =>
    intro read
    simp only [variableLoop]
    split
    · exact Nat.le_refl _
    · exact Nat.le_trans (Nat.le_succ read) (ih (read + 1))

theorem arrayVariableLoop_le (data : Bytes) (start flags : Nat) :
    ∀ rest read, read ≤ (arrayVariableLoop data start flags read rest).2 := by
  intro rest
  induction rest with
  | nil => intro read; exact Nat.le_refl _
  | cons c rest ih =>
    intro read
    simp only [arrayVariableLoop]
    split
    · exact Nat.le_refl _
    · exact Nat.le_trans (Nat.le_succ read) (ih (read + 1))

theorem bracedVariableLoop_le (data : Bytes) (start flags : Nat) :
    ∀ rest read t r',
      bracedVariableLoop data start flags read rest = .ok (t, r') → read ≤ r' := by
  intro rest
  induction rest with
  | nil => intro read t r' h; exact absurd h (by simp [bracedVariableLoop])
  | cons c rest ih =>
    intro read t r' h
    simp only [bracedVariableLoop] at h
    split at h
    · injection h with h1
      injection h1 with ha hb
      omega
    · exact Nat.le_trans (Nat.le_succ read) (ih (read + 1) t r' h)

theorem processLoop_le (data : Bytes) (start : Nat) :
    ∀ rest read flags level t r' f',
      processLoop data start read flags level rest = .ok (t, r', f') → read ≤ r' := by
  intro rest
  induction rest with
  | nil => intro read flags level t r' f' h; exact absurd h (by simp [processLoop])
  | cons c rest ih =>
    intro read flags level t r' f' h
    simp only [processLoop] at h
    repeat' split at h
    all_goals
      first
      | exact Nat.le_trans (Nat.le_succ read) (ih (read + 1) _ _ t r' f' h)
      | (injection h with h1
         injection h1 with ha hb
         injection hb with hb1 hb2
         omega)
      | injection h

theorem arrayProcessLoop_le (data : Bytes) (start : Nat) :
    ∀ rest read flags level t r' f',
      arrayProcessLoop data start read flags level rest = .ok (t, r', f') → read ≤ r' := by
  intro rest
  induction rest with
  | nil => intro read flags level t r' f' h; exact absurd h (by simp [arrayProcessLoop])
  | cons c rest ih =>
    intro read flags level t r' f' h
    simp only [arrayProcessLoop] at h
    repeat' split at h
    all_goals
      first
      | exact Nat.le_trans (Nat.le_succ read) (ih (read + 1) _ _ t r' f' h)
      | (injection h with h1
         injection h1 with ha hb
         injection hb with hb1 hb2
         omega)
      | injection h

theorem bracesLoop_le (data : Bytes) :
    ∀ rest start read flags level els t r' f',
      bracesLoop data start read flags level els rest = .ok (t, r', f') → read ≤ r' := by
  intro rest
  induction rest with
  | nil => intro start read flags level els t r' f' h; exact absurd h (by simp [bracesLoop])
  | cons c rest ih =>
    intro start read flags level els t r' f' h
    simp only [bracesLoop] at h
    repeat' split at h
    all_goals
      first
      | exact Nat.le_trans (Nat.le_succ read) (ih _ (read + 1) _ _ _ t r' f' h)
      | (injection h with h1
         injection h1 with ha hb
         injection hb with hb1 hb2
         omega)
      | injection h

theorem accumulate_le (data : Bytes) (start : Nat) :
    ∀ rest read flags o r' f',
      accumulate data start read flags rest = (o, r', f') → read ≤ r' := by
  intro rest
  induction rest with
  | nil =>
    intro read flags o r' f' h
    simp only [accumulate] at h
    split at h
    all_goals
      injection h with h1 h2
      injection h2 with h2a h2b
      omega
  | cons c rest ih =>
    intro read flags o r' f' h
    simp only [accumulate] at h
    repeat' split at h
    all_goals
      first
      | exact Nat.le_trans (Nat.le_succ read) (ih (read + 1) _ o r' f' h)
      | (injection h with h1 h2
         injection h2 with h2a h2b
         omega)

theorem accumulate_none (data : Bytes) (start : Nat) :
    ∀ rest read flags r' f',
      data.drop read = rest →
      accumulate data start read flags rest = (none, r', f') →
      data.length ≤ r' := by
  intro rest
  induction rest with
  | nil =>
    intro read flags r' f' hsync h
    simp only [accumulate] at h
    split at h
    · injection h with h1 h2
      injection h2 with h2a h2b
      have := length_le_of_drop_nil hsync
      omega
    · injection h with h1 h2
      exact absurd h1 (by simp)
  | cons c rest ih =>
    intro read flags r' f' hsync h
    simp only [accumulate] at h
    repeat' split at h
    all_goals
      first
      | exact ih (read + 1) _ r' f' (drop_succ_of_drop_cons hsync) h
      | (injection h with h1 h2
         exact absurd h1 (by simp))

theorem nextLoop_facts (data : Bytes) :
    ∀ rest start read flags ot r' f',
      data.drop read = rest →
      nextLoop data start read flags rest = .ok (ot, r', f') →
      read ≤ r' ∧ (ot = none → data.length ≤ r') := by
  intro rest
  induction rest with
  | nil =>
    intro start read flags ot r' f' hsync h
    simp only [nextLoop] at h
    injection h with h1
    injection h1 with ha hb
    injection hb with hb1 hb2
    subst ha hb1
    exact ⟨Nat.le_refl _, fun _ => length_le_of_drop_nil hsync⟩
  | cons c rest ih =>
    intro start read flags ot r' f' hsync h
    simp only [nextLoop, whitespaces, tilde, braces, braced_variable, process,
      array_process, «variable», array_variable, Nat.add_sub_cancel] at h
    repeat' split at h
    all_goals
      first
      | (injection h with h1
         injection h1 with ha hb
         injection hb with hb1 hb2
         have hle := whitespacesLoop_le data read rest (read + 1)
         constructor
         · omega
         · intro hn
           rw [← ha] at hn
           exact Option.noConfusion hn)
      | (injection h with h1
         injection h1 with ha hb
         injection hb with hb1 hb2
         have hle := tildeLoop_le data read rest (read + 1)
         constructor
         · omega
         · intro hn
           rw [← ha] at hn
           exact Option.noConfusion hn)
      | (injection h with h1
         injection h1 with ha hb
         injection hb with hb1 hb2
         have hle := variableLoop_le data (read + 1) flags rest.tail (read + 1 + 1)
         constructor
         · omega
         · intro hn
           rw [← ha] at hn
           exact Option.noConfusion hn)
      | (injection h with h1
         injection h1 with ha hb
         injection hb with hb1 hb2
         have hle := arrayVariableLoop_le data (read + 1) flags rest.tail (read + 1 + 1)
         constructor
         · omega
         · intro hn
           rw [← ha] at hn
           exact Option.noConfusion hn)
      | (rename_i heq
         injection h with h1
         injection h1 with ha hb
         injection hb with hb1 hb2
         have hle := bracesLoop_le _ _ _ _ _ _ _ _ _ _ heq
         constructor
         · omega
         · intro hn
           rw [← ha] at hn
           exact Option.noConfusion hn)
      | (rename_i heq
         injection h with h1
         injection h1 with ha hb
         injection hb with hb1 hb2
         have hle := processLoop_le _ _ _ _ _ _ _ _ _ heq
         constructor
         · omega
         · intro hn
           rw [← ha] at hn
           exact Option.noConfusion hn)
      | (rename_i heq
         injection h with h1
         injection h1 with ha hb
         injection hb with hb1 hb2
         have hle := arrayProcessLoop_le _ _ _ _ _ _ _ _ _ heq
         constructor
         · omega
         · intro hn
           rw [← ha] at hn
           exact Option.noConfusion hn)
      | (rename_i heq
         injection h with h1
         injection h1 with ha hb
         injection hb with hb1 hb2
         have hle := bracedVariableLoop_le _ _ _ _ _ _ _ heq
         constructor
         · omega
         · intro hn
           rw [← ha] at hn
           exact Option.noConfusion hn)
      | (injection h with h1
         exact ⟨Nat.le_trans (Nat.le_succ read) (accumulate_le _ _ _ _ _ _ _ _ h1),
           fun hn =>
             accumulate_none _ _ _ _ _ _ _ (drop_succ_of_drop_cons hsync) (hn ▸ h1)⟩)
      | injection h
      | (obtain ⟨ha, hb⟩ :=
           ih (start + 1) (read + 1) _ ot r' f' (drop_succ_of_drop_cons hsync) h
         exact ⟨Nat.le_trans (Nat.le_succ read) ha, hb⟩)

theorem next_facts (data : Bytes) {read flags : Nat} {ot : Option WordToken}
    {r' f' : Nat} (h : next data read flags = .ok (ot, r', f')) :
    read ≤ r' ∧ (ot = none → data.length ≤ r') := by
  unfold next at h
  split at h
  · injection h with h1
    injection h1 with ha hb
    injection hb with hb1 hb2
    subst ha hb1
    exact ⟨Nat.le_refl _, fun _ => by omega⟩
  · exact nextLoop_facts data (data.drop read) read read flags ot r' f' rfl h

theorem runS_spec (data : Bytes) :
    ∀ fuel read flags entries rfin ffin,
      runS data fuel read flags = .ok (entries, rfin, ffin) →
      (entries.map Prod.snd).flatten = slice data read rfin ∧
        read ≤ rfin ∧ data.length ≤ rfin := by
  intro fuel
  induction fuel with
  | zero =>
    intro read flags entries rfin ffin h
    exact absurd h (by simp [runS])
  | succ fuel ih =>
    intro read flags entries rfin ffin h
    simp only [runS] at h
    split at h
    · exact absurd h (by simp)
    · rename_i read' flags' heq
      injection h with h1
      injection h1 with ha hb
      injection hb with hb1 hb2
      subst ha hb1
      obtain ⟨hle, hnone⟩ := next_facts data heq
      exact ⟨by simp, hle, hnone rfl⟩
    · rename_i t read' flags' heq
      split at h
      · exact absurd h (by simp)
      · rename_i es rf ff heq2
        injection h with h1
        injection h1 with ha hb
        injection hb with hb1 hb2
        subst ha hb1 hb2
        obtain ⟨hj, hle2, hlen⟩ := ih read' flags' es rf ff heq2
        obtain ⟨hle1, -⟩ := next_facts data heq
        refine ⟨?_, Nat.le_trans hle1 hle2, hlen⟩
        rw [List.map_cons]
        show (slice data read read' :: es.map Prod.snd).flatten = slice data read rf
        rw [List.flatten_cons, hj]
        exact slice_append hle1 hle2

/-! ### Preservation of the quote-flag invariant -/

theorem flagInv_xor_backsl {f : Nat} (h : flagInv f) : flagInv (f.xor BACKSL) := by
  obtain ⟨h8, h6⟩ := h
  interval_cases f <;> revert h6 <;> decide

theorem flagInv_xor_squote {f : Nat} (h : flagInv f) (hd : f.land DQUOTE = 0) :
    flagInv (f.xor SQUOTE) := by
  obtain ⟨h8, h6⟩ := h
  interval_cases f <;> revert h6 hd <;> decide

theorem flagInv_xor_dquote {f : Nat} (h : flagInv f) (hs : f.land SQUOTE = 0) :
    flagInv (f.xor DQUOTE) := by
  obtain ⟨h8, h6⟩ := h
  interval_cases f <;> revert h6 hs <;> decide

theorem processLoop_flagInv (data : Bytes) (start : Nat) :
    ∀ rest read flags level t r' f', flagInv flags →
      processLoop data start read flags level rest = .ok (t, r', f') → flagInv f' := by
  intro rest
  induction rest with
  | nil =>
    intro read flags level t r' f' hf h
    exact absurd h (by simp [processLoop])
  | cons c rest ih =>
    intro read flags level t r' f' hf h
    simp only [processLoop] at h
    repeat' split at h
    all_goals
      first
      | exact ih _ _ _ _ _ _ (flagInv_xor_backsl hf) h
      | (rename_i hc
         exact ih _ _ _ _ _ _ (flagInv_xor_squote hf hc.2) h)
      | (rename_i hc
         exact ih _ _ _ _ _ _ (flagInv_xor_dquote hf hc.2) h)
      | exact ih _ _ _ _ _ _ hf h
      | (injection h with h1
         injection h1 with ha hb
         injection hb with hb1 hb2
         exact hb2 ▸ hf)
      | injection h

theorem arrayProcessLoop_flagInv (data : Bytes) (start : Nat) :
    ∀ rest read flags level t r' f', flagInv flags →
      arrayProcessLoop data start read flags level rest = .ok (t, r', f') → flagInv f' := by
  intro rest
  induction rest with
  | nil =>
    intro read flags level t r' f' hf h
    exact absurd h (by simp [arrayProcessLoop])
  | cons c rest ih =>
    intro read flags level t r' f' hf h
    simp only [arrayProcessLoop] at h
    repeat' split at h
    all_goals
      first
      | exact ih _ _ _ _ _ _ (flagInv_xor_backsl hf) h
      | (rename_i hc
         exact ih _ _ _ _ _ _ (flagInv_xor_squote hf hc.2) h)
      | (rename_i hc
         exact ih _ _ _ _ _ _ (flagInv_xor_dquote hf hc.2) h)
      | exact ih _ _ _ _ _ _ hf h
      | (injection h with h1
         injection h1 with ha hb
         injection hb with hb1 hb2
         exact hb2 ▸ hf)
      | injection h

theorem bracesLoop_flagInv (data : Bytes) :
    ∀ rest start read flags level els t r' f', flagInv flags →
      bracesLoop data start read flags level els rest = .ok (t, r', f') → flagInv f' := by
  intro rest
  induction rest with
  | nil =>
    intro start read flags level els t r' f' hf h
    exact absurd h (by simp [bracesLoop])
  | cons c rest ih =>
    intro start read flags level els t r' f' hf h
    simp only [bracesLoop] at h
    repeat' split at h
    all_goals
      first
      | exact ih _ _ _ _ _ _ _ _ (flagInv_xor_backsl hf) h
      | (rename_i hc
         exact ih _ _ _ _ _ _ _ _ (flagInv_xor_squote hf hc.2) h)
      | (rename_i hc
         exact ih _ _ _ _ _ _ _ _ (flagInv_xor_dquote hf hc.2) h)
      | exact ih _ _ _ _ _ _ _ _ hf h
      | (injection h with h1
         injection h1 with ha hb
         injection hb with hb1 hb2
         exact hb2 ▸ hf)
      | injection h

theorem accumulate_flagInv (data : Bytes) (start : Nat) :
    ∀ rest read flags o r' f', flagInv flags →
      accumulate data start read flags rest = (o, r', f') → flagInv f' := by
  intro rest
  induction rest with
  | nil =>
    intro read flags o r' f' hf h
    simp only [accumulate] at h
    split at h
    all_goals
      injection h with h1 h2
      injection h2 with h2a h2b
      exact h2b ▸ hf
  | cons c rest ih =>
    intro read flags o r' f' hf h
    simp only [accumulate] at h
    repeat' split at h
    all_goals
      first
      | exact ih _ _ _ _ _ (flagInv_xor_backsl hf) h
      | (rename_i hc
         injection h with h1 h2
         injection h2 with h2a h2b
         exact h2b ▸ flagInv_xor_squote hf hc.2)
      | (rename_i hc
         injection h with h1 h2
         injection h2 with h2a h2b
         exact h2b ▸ flagInv_xor_dquote hf hc.2)
      | exact ih _ _ _ _ _ hf h
      | (injection h with h1 h2
         injection h2 with h2a h2b
         exact h2b ▸ hf)

theorem nextLoop_flagInv (data : Bytes) :
    ∀ rest start read flags ot r' f', flagInv flags →
      nextLoop data start read flags rest = .ok (ot, r', f') → flagInv f' := by
  intro rest
  induction rest with
  | nil =>
    intro start read flags ot r' f' hf h
    simp only [nextLoop] at h
    injection h with h1
    injection h1 with ha hb
    injection hb with hb1 hb2
    exact hb2 ▸ hf
  | cons c rest ih =>
    intro start read flags ot r' f' hf h
    simp only [nextLoop, whitespaces, tilde, braces, braced_variable, process,
      array_process, «variable», array_variable, Nat.add_sub_cancel] at h
    repeat' split at h
    all_goals
      first
      | (rename_i heq
         injection h with h1
         injection h1 with ha hb
         injection hb with hb1 hb2
         exact hb2 ▸ bracesLoop_flagInv _ _ _ _ _ _ _ _ _ _ hf heq)
      | (rename_i heq
         injection h with h1
         injection h1 with ha hb
         injection hb with hb1 hb2
         exact hb2 ▸ processLoop_flagInv _ _ _ _ _ _ _ _ _ hf heq)
      | (rename_i heq
         injection h with h1
         injection h1 with ha hb
         injection hb with hb1 hb2
         exact hb2 ▸ arrayProcessLoop_flagInv _ _ _ _ _ _ _ _ _ hf heq)
      | (injection h with h1
         exact accumulate_flagInv _ _ _ _ _ _ _ _ hf h1)
      | (injection h with h1
         injection h1 with ha hb
         injection hb with hb1 hb2
         exact hb2 ▸ hf)
      | injection h
      | (rename_i hc
         exact ih _ _ _ _ _ _ (flagInv_xor_squote hf hc.2) h)
      | (rename_i hc
         exact ih _ _ _ _ _ _ (flagInv_xor_dquote hf hc.2) h)

theorem next_flagInv (data : Bytes) {read flags : Nat} {ot : Option WordToken}
    {r' f' : Nat} (hf : flagInv flags) (h : next data read flags = .ok (ot, r', f')) :
    flagInv f' := by
  unfold next at h
  split at h
  · injection h with h1
    injection h1 with ha hb
    injection hb with hb1 hb2
    exact hb2 ▸ hf
  · exact nextLoop_flagInv data (data.drop read) read read flags ot r' f' hf h

theorem runS_flagInv (data : Bytes) :
    ∀ fuel read flags entries rfin ffin, flagInv flags →
      runS data fuel read flags = .ok (entries, rfin, ffin) → flagInv ffin := by
  intro fuel
  induction fuel with
  | zero =>
    intro read flags entries rfin ffin hf h
    exact absurd h (by simp [runS])
  | succ fuel ih =>
    intro read flags entries rfin ffin hf h
    simp only [runS] at h
    split at h
    · exact absurd h (by simp)
    · rename_i read' flags' heq
      injection h with h1
      injection h1 with ha hb
      injection hb with hb1 hb2
      exact hb2 ▸ next_flagInv data hf heq
    · rename_i t read' flags' heq
      split at h
      · exact absurd h (by simp)
      · rename_i es rf ff heq2
        injection h with h1
        injection h1 with ha hb
        injection hb with hb1 hb2
        exact hb2 ▸ ih read' flags' es rf ff (next_flagInv data hf heq) heq2

/-! ### Shape of the substitution tokens: the quoted bit is read at return -/

theorem processLoop_quoted (data : Bytes) (start : Nat) :
    ∀ rest read flags level t q r' f',
      processLoop data start read flags level rest = .ok (.Process t q, r', f') →
      q = dq f' := by
  intro rest
  induction rest with
  | nil =>
    intro read flags level t q r' f' h
    exact absurd h (by simp [processLoop])
  | cons c rest ih =>
    intro read flags level t q r' f' h
    simp only [processLoop] at h
    repeat' split at h
    all_goals
      first
      | exact ih _ _ _ _ _ _ _ h
      | (injection h with h1
         injection h1 with ha hb
         injection hb with hb1 hb2
         injection ha with ha1 ha2
         rw [← ha2, ← hb2])
      | injection h

theorem arrayProcessLoop_quoted (data : Bytes) (start : Nat) :
    ∀ rest read flags level t q i r' f',
      arrayProcessLoop data start read flags level rest = .ok (.ArrayProcess t q i, r', f') →
      q = dq f' := by
  intro rest
  induction rest with
  | nil =>
    intro read flags level t q i r' f' h
    exact absurd h (by simp [arrayProcessLoop])
  | cons c rest ih =>
    intro read flags level t q i r' f' h
    simp only [arrayProcessLoop] at h
    repeat' split at h
    all_goals
      first
      | exact ih _ _ _ _ _ _ _ _ h
      | (injection h with h1
         injection h1 with ha hb
         injection hb with hb1 hb2
         injection ha with ha1 ha2 ha3
         rw [← ha2, ← hb2])
      | injection h

/-! ### Flag restoration at the close of a substitution scan -/

theorem processLoop_close_flags (data : Bytes) (start : Nat) :
    ∀ rest read flags level t r' f',
      processLoop data start read flags level rest = .ok (t, r', f') →
      f'.land SQUOTE = 0 ∧ f'.land BACKSL = 0 := by
  intro rest
  induction rest with
  | nil =>
    intro read flags level t r' f' h
    exact absurd h (by simp [processLoop])
  | cons c rest ih =>
    intro read flags level t r' f' h
    simp only [processLoop] at h
    repeat' split at h
    all_goals
      first
      | exact ih _ _ _ _ _ _ h
      | (injection h with h1
         injection h1 with ha hb
         injection hb with hb1 hb2
         subst hb2
         constructor
         · omega
         · omega)
      | injection h

theorem arrayProcessLoop_close_flags (data : Bytes) (start : Nat) :
    ∀ rest read flags level t r' f',
      arrayProcessLoop data start read flags level rest = .ok (t, r', f') →
      f'.land SQUOTE = 0 ∧ f'.land BACKSL = 0 := by
  intro rest
  induction rest with
  | nil =>
    intro read flags level t r' f' h
    exact absurd h (by simp [arrayProcessLoop])
  | cons c rest ih =>
    intro read flags level t r' f' h
    simp only [arrayProcessLoop] at h
    repeat' split at h
    all_goals
      first
      | exact ih _ _ _ _ _ _ h
      | (injection h with h1
         injection h1 with ha hb
         injection hb with hb1 hb2
         subst hb2
         constructor
         · omega
         · omega)
      | injection h

/-! ### Unterminated constructs abort -/

theorem bracedVariableLoop_no_close (data : Bytes) (start flags : Nat) :
    ∀ rest read, 125 ∉ rest →
      ∃ e, bracedVariableLoop data start flags read rest = .error e := by
  intro rest
  induction rest with
  | nil => intro read hno; exact ⟨_, rfl⟩
  | cons c rest ih =>
    intro read hno
    rw [List.mem_cons] at hno
    push_neg at hno
    simp only [bracedVariableLoop]
    split
    · exfalso; omega
    · exact ih (read + 1) hno.2

theorem processLoop_no_close (data : Bytes) (start : Nat) :
    ∀ rest read flags level, 41 ∉ rest →
      ∃ e, processLoop data start read flags level rest = .error e := by
  intro rest
  induction rest with
  | nil => intro read flags level hno; exact ⟨_, rfl⟩
  | cons c rest ih =>
    intro read flags level hno
    rw [List.mem_cons] at hno
    push_neg at hno
    simp only [processLoop]
    repeat' split
    all_goals
      first
      | exact ih _ _ _ hno.2
      | exact ⟨_, rfl⟩
      | (exfalso; omega)

theorem arrayProcessLoop_no_close (data : Bytes) (start : Nat) :
    ∀ rest read flags level, 93 ∉ rest →
      ∃ e, arrayProcessLoop data start read flags level rest = .error e := by
  intro rest
  induction rest with
  | nil => intro read flags level hno; exact ⟨_, rfl⟩
  | cons c rest ih =>
    intro read flags level hno
    rw [List.mem_cons] at hno
    push_neg at hno
    simp only [arrayProcessLoop]
    repeat' split
    all_goals
      first
      | exact ih _ _ _ hno.2
      | exact ⟨_, rfl⟩
      | (exfalso; omega)

theorem bracesLoop_no_close (data : Bytes) :
    ∀ rest start read flags level els, 125 ∉ rest →
      ∃ e, bracesLoop data start read flags level els rest = .error e := by
  intro rest
  induction rest with
  | nil => intro start read flags level els hno; exact ⟨_, rfl⟩
  | cons c rest ih =>
    intro start read flags level els hno
    rw [List.mem_cons] at hno
    push_neg at hno
    simp only [bracesLoop]
    repeat' split
    all_goals
      first
      | exact ih _ _ _ _ _ hno.2
      | exact ⟨_, rfl⟩
      | (exfalso; omega)

/-! ### The variable-name run -/

theorem variableLoop_name (data : Bytes) (start flags : Nat) :
    ∀ rest read, data.drop read = rest → start ≤ read →
      (variableLoop data start flags read rest).1 =
        .Variable (slice data start read ++ rest.takeWhile (fun b => !isDelim b))
          (dq flags) := by
  intro rest
  induction rest with
  | nil =>
    intro read hsync hle
    simp only [variableLoop, List.takeWhile_nil, List.append_nil]
    rw [slice_eq_drop (length_le_of_drop_nil hsync)]
  | cons c rest ih =>
    intro read hsync hle
    cases hd : isDelim c with
    | true =>
      simp [variableLoop, hd, List.takeWhile_cons]
    | false =>
      have h1 := ih (read + 1) (drop_succ_of_drop_cons hsync)
        (Nat.le_trans hle (Nat.le_succ read))
      simp only [variableLoop, hd, Bool.false_eq_true, if_false, h1,
        List.takeWhile_cons, Bool.not_false, if_true]
      rw [← slice_append hle (Nat.le_succ read), slice_single hsync,
        List.append_assoc]
      rfl

theorem arrayVariableLoop_name (data : Bytes) (start flags : Nat) :
    ∀ rest read, data.drop read = rest → start ≤ read →
      nameOf (arrayVariableLoop data start flags read rest).1 =
        some (slice data start read ++ rest.takeWhile (fun b => !isDelim b)) := by
  intro rest
  induction rest with
  | nil =>
    intro read hsync hle
    simp only [arrayVariableLoop, List.takeWhile_nil, List.append_nil, nameOf]
    rw [slice_eq_drop (length_le_of_drop_nil hsync)]
  | cons c rest ih =>
    intro read hsync hle
    cases hd : isDelim c with
    | true =>
      simp [arrayVariableLoop, hd, List.takeWhile_cons, nameOf]
    | false =>
      have h1 := ih (read + 1) (drop_succ_of_drop_cons hsync)
        (Nat.le_trans hle (Nat.le_succ read))
      simp only [arrayVariableLoop, hd, Bool.false_eq_true, if_false, h1,
        List.takeWhile_cons, Bool.not_false, if_true]
      rw [← slice_append hle (Nat.le_succ read), slice_single hsync,
        List.append_assoc]
      rfl

/-! ### The out-of-bounds lookahead -/

theorem processLoop_error_cases (data : Bytes) (start : Nat) :
    ∀ rest read flags level e,
      processLoop data start read flags level rest = .error e →
      e = .unterminatedProcess ∨ e = .indexOutOfBounds := by
  intro rest
  induction rest with
  | nil =>
    intro read flags level e h
    injection h with h1
    exact Or.inl h1.symm
  | cons c rest ih =>
    intro read flags level e h
    simp only [processLoop] at h
    repeat' split at h
    all_goals
      first
      | exact ih _ _ _ _ h
      | (injection h with h1
         exact Or.inr h1.symm)
      | injection h

theorem arrayProcessLoop_error_cases (data : Bytes) (start : Nat) :
    ∀ rest read flags level e,
      arrayProcessLoop data start read flags level rest = .error e →
      e = .unterminatedArrayProcess ∨ e = .indexOutOfBounds := by
  intro rest
  induction rest with
  | nil =>
    intro read flags level e h
    injection h with h1
    exact Or.inl h1.symm
  | cons c rest ih =>
    intro read flags level e h
    simp only [arrayProcessLoop] at h
    repeat' split at h
    all_goals
      first
      | exact ih _ _ _ _ h
      | (injection h with h1
         exact Or.inr h1.symm)
      | injection h

theorem processLoop_oob_last (data : Bytes) (start : Nat) :
    ∀ rest read flags level,
      data.drop read = rest →
      processLoop data start read flags level rest = .error .indexOutOfBounds →
      data.getLast? = some 36 := by
  intro rest
  induction rest with
  | nil =>
    intro read flags level hsync h
    injection h with h1
    exact absurd h1 (by simp)
  | cons c rest ih =>
    intro read flags level hsync h
    simp only [processLoop] at h
    repeat' split at h
    all_goals
      first
      | exact ih _ _ _ (drop_succ_of_drop_cons hsync) h
      | injection h
      | skip
    all_goals
      rename_i hc hx heq ha
      have hlen : data.length ≤ read + 1 := List.get?_eq_none.mp heq
      have hlt : read < data.length := lt_length_of_drop_cons hsync
      have hrl := congrArg List.length hsync
      simp only [List.length_drop, List.length_cons] at hrl
      have hrest : rest = [] := List.length_eq_zero.mp (by omega)
      rw [hrest] at hsync
      rw [getLast?_of_drop_single hsync, hc.1]

theorem arrayProcessLoop_oob_last (data : Bytes) (start : Nat) :
    ∀ rest read flags level,
      data.drop read = rest →
      arrayProcessLoop data start read flags level rest = .error .indexOutOfBounds →
      data.getLast? = some 64 := by
  intro rest
  induction rest with
  | nil =>
    intro read flags level hsync h
    injection h with h1
    exact absurd h1 (by simp)
  | cons c rest ih =>
    intro read flags level hsync h
    simp only [arrayProcessLoop] at h
    repeat' split at h
    all_goals
      first
      | exact ih _ _ _ (drop_succ_of_drop_cons hsync) h
      | injection h
      | skip
    all_goals
      rename_i hc hx heq ha
      have hlen : data.length ≤ read + 1 := List.get?_eq_none.mp heq
      have hlt : read < data.length := lt_length_of_drop_cons hsync
      have hrl := congrArg List.length hsync
      simp only [List.length_drop, List.length_cons] at hrl
      have hrest : rest = [] := List.length_eq_zero.mp (by omega)
      rw [hrest] at hsync
      rw [getLast?_of_drop_single hsync, hc.1]

/-! ### Claim theorems: concrete evaluations -/

/-- C1: the claim says every `@name` delegation returns
`ArrayVariable(name, quoted, All)` whether the name run ends at a delimiter
or at end of input.  Evaluating the code on `"@A "` (name ended by the
delimiter `' '`, byte 32) shows the delimiter branch of
`WordIterator::array_variable` returns a plain `Variable("A", false)`
token instead; only the end-of-input branch builds an `ArrayVariable`. -/
theorem c1_array_variable_delimiter_eval :
    run (toBytes "@A ") 4 0 0 =
      .ok [.Variable (toBytes "A") false, .Whitespace (toBytes " ")] := by
  decide

/-- C4: lexing `echo $(echo $(echo one))` yields exactly
`Normal("echo")`, `Whitespace(" ")`, `Process("echo $(echo one)", false)`:
the inner `$(...)` does not prematurely close the outer substitution. -/
theorem c4_nested_process_tokens :
    run (toBytes "echo $(echo $(echo one))") 25 0 0 =
      .ok [.Normal (toBytes "echo"), .Whitespace (toBytes " "),
           .Process (toBytes "echo $(echo one)") false] := by
  decide

/-- C7: lexing `\'$A\'` produces no `Variable` token; the dollar sign and
name come back as the literal token `Normal("$A")`, because `$` loses its
special meaning inside single quotes. -/
theorem c7_quote_suppression :
    run (toBytes "\'$A\'") 5 0 0 = .ok [.Normal (toBytes "$A")] := by
  decide

/-- C2 counterexample: lexing `$("a)` from an unquoted context
(`dq 0 = false` at entry to the substitution sub-lexer) returns
`Process("\"a", quoted := true)`: the unescaped `"` inside the substitution
body toggled the double-quote flag before the closing `)` was seen, and the
`quoted` boolean reports that mutated state, not the flag at entry. -/
theorem c2_counterexample_quoted_is_exit_state :
    next (toBytes "$(\"a)") 0 0 =
        .ok (some (.Process (toBytes "\"a") true), 5, 4) ∧
      dq 0 = false := by
  decide

/-- C3 counterexample: the same completed scan of `$("a)` returns with the
flag register equal to `4` (`DQUOTE` set) although it was `0` before the
sub-lexer was entered: the inner double-quote toggle leaks into the
driver's top-level flag state even though the scan saw its closing
delimiter at nesting level zero. -/
theorem c3_counterexample_flag_leak :
    next (toBytes "$(\"a)") 0 0 =
        .ok (some (.Process (toBytes "\"a") true), 5, 4) ∧
      dq 4 ≠ dq 0 := by
  decide

/-- C6 counterexample: lexing `$/.` returns `Variable("/", false)`: the
byte `/` (47), a delimiter/non-name byte immediately following the sigil,
is included in the returned name, because `WordIterator::variable` steps
over the first byte after the sigil unconditionally. -/
theorem c6_counterexample_first_byte_included :
    next (toBytes "$/.") 0 0 = .ok (some (.Variable (toBytes "/") false), 2, 0) ∧
      isDelim 47 = true := by
  decide

/-- C9: round-trip span coverage.  For every lexing pass that completes
without a fatal error, concatenating the spans of input bytes consumed by
the successive `next` calls — each span covering the raw text underlying
the returned token together with the quote-boundary and delimiter bytes
implicitly consumed around it, plus the final end-of-input step —
reconstructs the exact original input line: every input byte is consumed
exactly once, in order. -/
theorem c9_round_trip (data : Bytes) (fuel : Nat)
    (entries : List (Option WordToken × Bytes)) (rfin ffin : Nat)
    (h : runS data fuel 0 0 = .ok (entries, rfin, ffin)) :
    (entries.map Prod.snd).flatten = data := by
  obtain ⟨hj, -, hlen⟩ := runS_spec data fuel 0 0 entries rfin ffin h
  rw [hj]
  unfold slice
  simp only [List.drop_zero, Nat.sub_zero]
  exact List.take_of_length_le hlen

/-- Witness for C9: a lexing pass over `a b` completes, and the consumed
spans concatenate back to the input. -/
theorem c9_round_trip_witness :
    runS (toBytes "a b") 5 0 0 =
        .ok ([(some (.Normal (toBytes "a")), toBytes "a"),
              (some (.Whitespace (toBytes " ")), toBytes " "),
              (some (.Normal (toBytes "b")), toBytes "b"),
              (none, [])], 3, 0) ∧
      ([(some (.Normal (toBytes "a")), toBytes "a"),
         (some (.Whitespace (toBytes " ")), toBytes " "),
         (some (.Normal (toBytes "b")), toBytes "b"),
         ((none : Option WordToken), ([] : Bytes))].map Prod.snd).flatten =
        toBytes "a b" :=
  ⟨by decide,
    c9_round_trip (toBytes "a b") 5
      [(some (.Normal (toBytes "a")), toBytes "a"),
       (some (.Whitespace (toBytes " ")), toBytes " "),
       (some (.Normal (toBytes "b")), toBytes "b"),
       (none, [])] 3 0 (by decide)⟩

/-- C2 (amended): for every `Process(text, quoted)` / `ArrayProcess(text,
quoted, All)` token returned by the substitution sub-lexers, `quoted`
equals the double-quote flag as it stands when the closing delimiter is
seen — the flag value the sub-lexer returns with — not the flag at entry.
The two coincide exactly when the double-quote toggles inside the
substitution body are balanced at the close (the counterexample `$("a)`
shows they differ otherwise). -/
theorem c2_amended_quoted_at_close :
    (∀ data read flags rest t q r' f',
        process data read flags rest = .ok (.Process t q, r', f') → q = dq f') ∧
    (∀ data read flags rest t q i r' f',
        array_process data read flags rest = .ok (.ArrayProcess t q i, r', f') →
          q = dq f') := by
  constructor
  · intro data read flags rest t q r' f' h
    exact processLoop_quoted data read rest read flags 0 t q r' f' h
  · intro data read flags rest t q i r' f' h
    exact arrayProcessLoop_quoted data read rest read flags 0 t q i r' f' h

/-- Witness for C2: on the balanced body `a)` (resp. `a]`) entered with
flags `0`, the token's quoted bit is `dq 0 = false`. -/
theorem c2_amended_witness : false = dq 0 ∧ false = dq 0 :=
  ⟨c2_amended_quoted_at_close.1 (toBytes "$(a)") 2 0 (toBytes "a)")
      (toBytes "a") false 4 0 (by decide),
   c2_amended_quoted_at_close.2 (toBytes "@[a]") 2 0 (toBytes "a]")
      (toBytes "a") false .All 4 0 (by decide)⟩

/-- C3 (amended): when a process / array-process scan completes, the
returned flag register always has `SQUOTE` and `BACKSL` clear — so the
single-quote flag is restored to its (necessarily clear) value at entry,
the driver only delegating with `SQUOTE` unset.  The double-quote flag,
by contrast, is whatever the body's toggles left it as when the closing
delimiter was seen, and leaks when the body's double quotes are
unbalanced (counterexample `$("a)`). -/
theorem c3_amended_squote_restored :
    (∀ data read flags rest t r' f',
        process data read flags rest = .ok (t, r', f') →
        f'.land SQUOTE = 0 ∧ f'.land BACKSL = 0) ∧
    (∀ data read flags rest t r' f',
        array_process data read flags rest = .ok (t, r', f') →
        f'.land SQUOTE = 0 ∧ f'.land BACKSL = 0) := by
  constructor
  · intro data read flags rest t r' f' h
    exact processLoop_close_flags data read rest read flags 0 t r' f' h
  · intro data read flags rest t r' f' h
    exact arrayProcessLoop_close_flags data read rest read flags 0 t r' f' h

/-- Witness for C3: completed scans of `a)` and `a]` return flag register
`0`, which has `SQUOTE` and `BACKSL` clear. -/
theorem c3_amended_witness :
    ((0 : Nat).land SQUOTE = 0 ∧ (0 : Nat).land BACKSL = 0) ∧
    ((0 : Nat).land SQUOTE = 0 ∧ (0 : Nat).land BACKSL = 0) :=
  ⟨c3_amended_squote_restored.1 (toBytes "$(a)") 2 0 (toBytes "a)")
      (.Process (toBytes "a") false) 4 0 (by decide),
   c3_amended_squote_restored.2 (toBytes "@[a]") 2 0 (toBytes "a]")
      (.ArrayProcess (toBytes "a") false .All) 4 0 (by decide)⟩

/-- C5: an input that ends inside an open `${`, `$(`, `@[` or `{`
construct with no matching close — formalised as: the remaining input
contains no closing-delimiter byte at all — makes the corresponding
sub-lexer return a `LexError` (one of the source's `panic!` aborts, or
the out-of-bounds index abort of the lookahead), never a token.  Errors
are distinguishable by type from the driver's normal end-of-input signal
`.ok (none, _, _)`, so no silently truncated token can be produced. -/
theorem c5_unterminated_aborts :
    (∀ data read flags rest, 125 ∉ rest →
        ∃ e, braced_variable data read flags rest = .error e) ∧
    (∀ data read flags rest, 41 ∉ rest →
        ∃ e, process data read flags rest = .error e) ∧
    (∀ data read flags rest, 93 ∉ rest →
        ∃ e, array_process data read flags rest = .error e) ∧
    (∀ data read flags rest, 125 ∉ rest →
        ∃ e, braces data read flags rest = .error e) := by
  refine ⟨?_, ?_, ?_, ?_⟩
  · intro data read flags rest hno
    exact bracedVariableLoop_no_close data read flags rest read hno
  · intro data read flags rest hno
    exact processLoop_no_close data read rest read flags 0 hno
  · intro data read flags rest hno
    exact arrayProcessLoop_no_close data read rest read flags 0 hno
  · intro data read flags rest hno
    exact bracesLoop_no_close data rest read read flags 0 [] hno

/-- Witness for C5: concrete unterminated `${A`, `$(x`, `@[x`, `{x`
inputs all abort. -/
theorem c5_witness :
    (∃ e, braced_variable (toBytes "$\x7bA") 2 0 (toBytes "A") = .error e) ∧
    (∃ e, process (toBytes "$(x") 2 0 (toBytes "x") = .error e) ∧
    (∃ e, array_process (toBytes "@[x") 2 0 (toBytes "x") = .error e) ∧
    (∃ e, braces (toBytes "\x7bx") 1 0 (toBytes "x") = .error e) :=
  ⟨c5_unterminated_aborts.1 _ 2 0 _ (by decide),
   c5_unterminated_aborts.2.1 _ 2 0 _ (by decide),
   c5_unterminated_aborts.2.2.1 _ 2 0 _ (by decide),
   c5_unterminated_aborts.2.2.2 _ 1 0 _ (by decide)⟩

/-- C6 (amended): the name returned by the Variable and Array-Variable
Lexers is the byte immediately after the sigil — included unconditionally,
even when it is a delimiter byte such as `/` — followed by the maximal run
of non-delimiter bytes; any later delimiter byte (ASCII outside
alphanumerics and underscore) terminates the name. -/
theorem c6_amended_name :
    (∀ data start flags,
        nameOf ((«variable» data start flags (data.drop (start + 1))).1) =
          some (nameAfterSigil data start)) ∧
    (∀ data start flags,
        nameOf ((array_variable data start flags (data.drop (start + 1))).1) =
          some (nameAfterSigil data start)) := by
  constructor
  · intro data start flags
    have h := variableLoop_name data start flags (data.drop (start + 1)) (start + 1)
      rfl (Nat.le_succ start)
    show nameOf (variableLoop data start flags (start + 1) (data.drop (start + 1))).1 =
      some (nameAfterSigil data start)
    rw [h]
    rfl
  · intro data start flags
    exact arrayVariableLoop_name data start flags (data.drop (start + 1)) (start + 1)
      rfl (Nat.le_succ start)

/-- C8: the single-quote and double-quote flags are never both set.  Every
flag register reachable during a lexing pass is the entry state of one of
the functions below (the driver loop and accumulation loop recurse through
`next`, each sub-lexer through its own loop), and each preserves
`flagInv` — bits within 1+2+4 and not both quote bits — from any entry
state satisfying it; the whole pass (`runS` from flags `0`) therefore
keeps the two quote flags mutually exclusive at every point. -/
theorem c8_quotes_mutually_exclusive :
    (∀ data start rest read flags o r' f', flagInv flags →
        accumulate data start read flags rest = (o, r', f') → flagInv f') ∧
    (∀ data start rest read flags level t r' f', flagInv flags →
        processLoop data start read flags level rest = .ok (t, r', f') → flagInv f') ∧
    (∀ data start rest read flags level t r' f', flagInv flags →
        arrayProcessLoop data start read flags level rest = .ok (t, r', f') →
          flagInv f') ∧
    (∀ data rest start read flags level els t r' f', flagInv flags →
        bracesLoop data start read flags level els rest = .ok (t, r', f') →
          flagInv f') ∧
    (∀ data read flags ot r' f', flagInv flags →
        next data read flags = .ok (ot, r', f') → flagInv f') ∧
    (∀ data fuel read flags entries rfin ffin, flagInv flags →
        runS data fuel read flags = .ok (entries, rfin, ffin) → flagInv ffin) :=
  ⟨accumulate_flagInv, processLoop_flagInv, arrayProcessLoop_flagInv,
   bracesLoop_flagInv,
   fun data read flags ot r' f' hf h => next_flagInv data hf h,
   runS_flagInv⟩

/-- Witness for C8: one `next` step over `"` toggles `DQUOTE`, reaching
register `4`, which still satisfies the invariant. -/
theorem c8_witness : flagInv 4 :=
  c8_quotes_mutually_exclusive.2.2.2.2.1 (toBytes "\"") 0 0 none 1 4
    (by decide) (by decide)

/-- C10: the unguarded lookahead `data[read+1]` of the substitution
sub-lexers goes out of bounds only when the `$` (resp. `@`) that triggered
it is the final byte of the line: an `indexOutOfBounds` abort implies the
input's last byte is `$` (resp. `@`).  Consequently, on any input whose
final byte is not the sigil, the scan can fail only through the
designated unterminated-construct error. -/
theorem c10_lookahead_in_bounds :
    (∀ data read flags rest,
        data.drop read = rest →
        process data read flags rest = .error .indexOutOfBounds →
        data.getLast? = some 36) ∧
    (∀ data read flags rest e,
        data.drop read = rest →
        data.getLast? ≠ some 36 →
        process data read flags rest = .error e →
        e = .unterminatedProcess) ∧
    (∀ data read flags rest,
        data.drop read = rest →
        array_process data read flags rest = .error .indexOutOfBounds →
        data.getLast? = some 64) ∧
    (∀ data read flags rest e,
        data.drop read = rest →
        data.getLast? ≠ some 64 →
        array_process data read flags rest = .error e →
        e = .unterminatedArrayProcess) := by
  refine ⟨?_, ?_, ?_, ?_⟩
  · intro data read flags rest hsync h
    exact processLoop_oob_last data read rest read flags 0 hsync h
  · intro data read flags rest e hsync hlast h
    rcases processLoop_error_cases data read rest read flags 0 e h with h1 | h1
    · exact h1
    · subst h1
      exact absurd (processLoop_oob_last data read rest read flags 0 hsync h) hlast
  · intro data read flags rest hsync h
    exact arrayProcessLoop_oob_last data read rest read flags 0 hsync h
  · intro data read flags rest e hsync hlast h
    rcases arrayProcessLoop_error_cases data read rest read flags 0 e h with h1 | h1
    · exact h1
    · subst h1
      exact absurd (arrayProcessLoop_oob_last data read rest read flags 0 hsync h)
        hlast

/-- Witness for C10: `$(x$` aborts out of bounds and its last byte is
indeed `$` (36); `$(x` (last byte not `$`) aborts with the designated
unterminated-process error; symmetrically for `@[`. -/
theorem c10_witness :
    (toBytes "$(x$").getLast? = some 36 ∧
    LexError.unterminatedProcess = LexError.unterminatedProcess ∧
    (toBytes "@[x@").getLast? = some 64 ∧
    LexError.unterminatedArrayProcess = LexError.unterminatedArrayProcess :=
  ⟨c10_lookahead_in_bounds.1 (toBytes "$(x$") 2 0 (toBytes "x$")
      (by decide) (by decide),
   c10_lookahead_in_bounds.2.1 (toBytes "$(x") 2 0 (toBytes "x")
      .unterminatedProcess (by decide) (by decide) (by decide),
   c10_lookahead_in_bounds.2.2.1 (toBytes "@[x@") 2 0 (toBytes "x@")
      (by decide) (by decide),
   c10_lookahead_in_bounds.2.2.2 (toBytes "@[x") 2 0 (toBytes "x")
      .unterminatedArrayProcess (by decide) (by decide) (by decide)⟩

end Words
